import Mathlib

/-!
# A verification development for the Rammbock protocol test library

This file embeds, in Lean 4, the session/builder layer of the library
(`src/proto/src/Rammbock.py`) together with the parts of the template layer
(`templates` / `Protocol` module, exercised by `src/proto/utest/test_protocol.py`
but not itself present in the sources) that the verified properties need.

Conventions of the embedding:
* Python strings are modelled as `List Char` (named `Str` below); `str.strip`,
  `str.find`, slicing and `in` are modelled by explicit list functions.
* Python `dict` is modelled as an association list with unique keys kept in
  insertion order; `d[k] = v`, `d.update(e)`, `dict(pairs)` and lookup are
  modelled by `dictSet`, `dictUpdate`, `dictOfList` and `dictGet`.
* A Python method that can `raise` is modelled as a function returning either
  `Except` (when the object state at the raise point is irrelevant) or a
  `StepRes` carrying the session state as it is when the exception escapes
  (Python leaves the object in exactly that state).
* The Python message stack is a list whose *last* element is the top
  (`stack[-1]` is the current container); the embedding keeps the top at the
  *head* of the list, so Python `append`/`pop` become head-cons/head-match.
-/

namespace Rammbock

/-- Python strings, modelled as lists of characters. -/
abbrev Str := List Char

/-- Whitespace stripping from both ends, as Python `str.strip()`. -/
def stripStr (s : Str) : Str :=
  ((s.dropWhile Char.isWhitespace).reverse.dropWhile Char.isWhitespace).reverse

/-- Python `str.find(c)` for a single character: index of the first
occurrence, `none` standing for Python's `-1`. -/
def findC (c : Char) : Str → Option Nat
  | [] => none
  | a :: rest => if a = c then some 0 else Option.map (· + 1) (findC c rest)

/-- A Python `dict` with `Str` keys and values: an association list with
unique keys in insertion order. -/
abbrev Dict := List (Str × Str)

/-- Lookup, as Python `d[k]` / `d.get(k)` (first matching key; keys are
unique by construction). -/
def dictGet (d : Dict) (k : Str) : Option Str :=
  match d with
  | [] => none
  | (a, b) :: rest => if a = k then some b else dictGet rest k

/-- Python `d[k] = v`: replace the value in place if the key exists,
otherwise append at the end (insertion order is preserved). -/
def dictSet (d : Dict) (k v : Str) : Dict :=
  match d with
  | [] => [(k, v)]
  | (a, b) :: rest => if a = k then (k, v) :: rest else (a, b) :: dictSet rest k v

/-- Python `d.update(pairs)`: fold `dictSet` over the pairs, so a later pair
with the same key wins. -/
def dictUpdate (d : Dict) (l : List (Str × Str)) : Dict :=
  l.foldl (fun acc p => dictSet acc p.1 p.2) d

/-- Python `dict(pairs)`. -/
def dictOfList (l : List (Str × Str)) : Dict :=
  dictUpdate [] l

/-- The value the *last* pair of a raw pair list gives to a key: this is what
`dict(pairs)` maps the key to. -/
def dictLastGet (l : List (Str × Str)) (k : Str) : Option Str :=
  match l with
  | [] => none
  | (a, b) :: rest =>
    match dictLastGet rest k with
    | some v => some v
    | none => if a = k then some b else none

@[simp] theorem dictGet_dictSet (d : Dict) (k v k' : Str) :
    dictGet (dictSet d k v) k' = if k = k' then some v else dictGet d k' := by
  induction d with
  | nil =>
    by_cases h : k = k' <;> simp [dictSet, dictGet, h]
  | cons p rest ih =>
    obtain ⟨a, b⟩ := p
    by_cases hak : a = k
    · subst hak
      by_cases h : a = k' <;> simp [dictSet, dictGet, h]
    · by_cases h : a = k'
      · subst h
        simp [dictSet, dictGet, hak, ih, Ne.symm hak]
      · simp [dictSet, dictGet, hak, h, ih]

theorem dictGet_dictUpdate_of_none (d : Dict) (l : List (Str × Str)) (k : Str)
    (h : dictLastGet l k = none) : dictGet (dictUpdate d l) k = dictGet d k := by
  induction l generalizing d with
  | nil => rfl
  | cons p rest ih =>
    obtain ⟨a, b⟩ := p
    rw [dictLastGet] at h
    cases hrest : dictLastGet rest k with
    | some w => rw [hrest] at h; simp at h
    | none =>
      rw [hrest] at h
      have hak : ¬ a = k := by
        intro hh; rw [if_pos hh] at h; simp at h
      simp only [dictUpdate, List.foldl_cons]
      rw [show List.foldl (fun acc p => dictSet acc p.1 p.2) (dictSet d a b) rest =
        dictUpdate (dictSet d a b) rest from rfl]
      rw [ih (dictSet d a b) hrest]
      simp [dictGet_dictSet, hak]

theorem dictGet_dictUpdate_of_last (d : Dict) (l : List (Str × Str)) (k v : Str)
    (h : dictLastGet l k = some v) : dictGet (dictUpdate d l) k = some v := by
  induction l generalizing d with
  | nil => simp [dictLastGet] at h
  | cons p rest ih =>
    obtain ⟨a, b⟩ := p
    rw [dictLastGet] at h
    simp only [dictUpdate, List.foldl_cons]
    rw [show List.foldl (fun acc p => dictSet acc p.1 p.2) (dictSet d a b) rest =
      dictUpdate (dictSet d a b) rest from rfl]
    cases hrest : dictLastGet rest k with
    | some w =>
      rw [hrest] at h
      obtain rfl : w = v := Option.some.inj h
      exact ih (dictSet d a b) hrest
    | none =>
      rw [hrest] at h
      by_cases hak : a = k
      · have hv : b = v := by
          rw [if_pos hak] at h; exact Option.some.inj h
        rw [dictGet_dictUpdate_of_none (dictSet d a b) rest k hrest]
        subst hv; subst hak
        simp [dictGet_dictSet]
      · rw [if_neg hak] at h; simp at h

@[simp] theorem dictGet_dictOfList (l : List (Str × Str)) (k : Str) :
    dictGet (dictOfList l) k = dictLastGet l k := by
  cases h : dictLastGet l k with
  | some v => exact dictGet_dictUpdate_of_last [] l k v h
  | none => rw [dictOfList, dictGet_dictUpdate_of_none [] l k h]; rfl

/-! ## Length expressions (templates module)

The `templates` / `Protocol` module is imported by `Rammbock.py` and exercised
by `utest/test_protocol.py` but its source is not part of this tree; the
definitions below are modelled from the specification. -/

/-- Digits of a decimal literal to a natural number. -/
def digitsToNat (s : Str) : Nat :=
  s.foldl (fun a c => a * 10 + (c.toNat - 48)) 0

/-- `true` iff the string is a non-empty run of decimal digits. -/
def isNatStr (s : Str) : Bool :=
  !s.isEmpty && s.all Char.isDigit

/-- Modelled from the spec: a `Length` expression is either **static** (a
literal non-negative byte count) or **dynamic** (`field_name [- subtractor]`),
with exactly one field reference. The subtractor is a Python integer. -/
inductive LengthDef where
  | static (n : Nat)
  | dynamic (field : Str) (subtractor : Int)
deriving DecidableEq, Repr

/-- Modelled from the spec: construction of a `Length` from its expression
string (`templates` module, not in `src/`). A digit run is static; a string
with no `-` is a dynamic reference with subtractor 0; `name-N` is a dynamic
reference with subtractor `N`; anything else (e.g. `length-messageId`, two
field references) is rejected. -/
def mkLength (s : Str) : Except String LengthDef :=
  if isNatStr s then .ok (.static (digitsToNat s))
  else
    match findC '-' s with
    | none => .ok (.dynamic s 0)
    | some i =>
      if isNatStr (s.drop (i + 1)) then
        .ok (.dynamic (s.take i) (Int.ofNat (digitsToNat (s.drop (i + 1)))))
      else .error "Only one variable is allowed in a dynamic length expression"

/-- Modelled from the spec: `Length.solve_value(parameter)` returns
`parameter - subtractor` (decode direction); a static length returns the
parameter unchanged. -/
def solve_value (L : LengthDef) (p : Int) : Int :=
  match L with
  | .static _ => p
  | .dynamic _ sub => p - sub

/-- Modelled from the spec: `Length.solve_parameter(value)` returns
`value + subtractor` (encode direction); a static length returns the value
unchanged. -/
def solve_parameter (L : LengthDef) (v : Int) : Int :=
  match L with
  | .static _ => v
  | .dynamic _ sub => v + sub

/-! ## Protocol header fields (templates module) -/

/-- A protocol header field: the primitive field templates that a protocol
is built from (`UInt`, `Char`, `PDU`). -/
inductive PField where
  | uintP (len : Nat) (name : Str)
  | charP (len : Nat) (name : Str)
  | pduP (lenSpec : Str)
deriving DecidableEq, Repr

/-- Static byte width of a header field; the PDU is the payload placeholder
and has width 0. -/
def pwidth : PField → Nat
  | .uintP n _ => n
  | .charP n _ => n
  | .pduP _ => 0

/-- `true` iff the field is the PDU placeholder. -/
def isPDUf : PField → Bool
  | .pduP _ => true
  | _ => false

/-- A protocol template: a name and an ordered list of header fields. -/
structure Protocol where
  name : Str
  pfields : List PField
deriving DecidableEq, Repr

/-- Modelled from the spec: `Protocol.header_length()` (templates module, not
in `src/`) sums the static byte widths of the header fields *up to and
including* the PDU — the PDU itself contributing zero — or of all fields when
no PDU is present. -/
def header_length_fields : List PField → Nat
  | [] => 0
  | .pduP _ :: _ => 0
  | f :: rest => pwidth f + header_length_fields rest

/-- `Protocol.header_length()` on a protocol value. -/
def Protocol.header_length (p : Protocol) : Nat :=
  header_length_fields p.pfields

/-! ## Keyword parameter parsing (`Rammbock._parse_entry` and friends) -/

/-- `Rammbock._name_and_value(separator, parameter)`: split at the first
occurrence of the separator, stripping whitespace from both parts. When the
separator is absent, Python's `find` returns `-1`, so the slices are
`parameter[:-1]` and `parameter[0:]` (this branch is unreachable from
`_parse_entry`). -/
def name_and_value (sep : Char) (param : Str) : Str × Str :=
  match findC sep param with
  | some i => (stripStr (param.take i), stripStr (param.drop (i + 1)))
  | none => (stripStr param.dropLast, stripStr param)

/-- A classified keyword parameter: a transport config (`key=value`) or a
field value (`key:value`). -/
inductive Entry where
  | configE (kv : Str × Str)
  | fieldE (kv : Str × Str)
deriving DecidableEq, Repr

/-- `Rammbock._parse_entry`: classify one parameter token by the positions of
the first `:` and the first `=` (`none` stands for Python's `-1`). -/
def parse_entry (param : Str) : Except String Entry :=
  match findC ':' param, findC '=' param with
  | none, none => .error "Illegal parameter"
  | some _, none => .ok (.fieldE (name_and_value ':' param))
  | none, some _ => .ok (.configE (name_and_value '=' param))
  | some ci, some ei =>
    if ci > ei then .ok (.configE (name_and_value '=' param))
    else .ok (.fieldE (name_and_value ':' param))

/-- The loop of `Rammbock._parse_parameters`: feed each token to
`_parse_entry`, accumulating the `configs` and `fields` lists in order. -/
def parse_entries : List Str → Except String (List (Str × Str) × List (Str × Str))
  | [] => .ok ([], [])
  | p :: rest =>
    match parse_entry p with
    | .error e => .error e
    | .ok (.configE kv) =>
      match parse_entries rest with
      | .error e => .error e
      | .ok (c, f) => .ok (kv :: c, f)
    | .ok (.fieldE kv) =>
      match parse_entries rest with
      | .error e => .error e
      | .ok (c, f) => .ok (c, kv :: f)

/-- The `header` key, the marker for header-field overrides. -/
def headerKey : Str := ['h', 'e', 'a', 'd', 'e', 'r']

/-- The guard of the loop in `Rammbock._get_headers`: the entry's name is
`header` and its value contains a `:`. -/
def isHeaderEntry (p : Str × Str) : Bool :=
  p.1 = headerKey ∧ ':' ∈ p.2

/-- Python `value.split(':', 1)`: the parts before and after the first `:`.
With no `:` present Python returns the one-element list `[value]`; every call
site guards on `':' in value`, and that case is modelled as `(value, [])`. -/
def splitColon1 (v : Str) : Str × Str :=
  match findC ':' v with
  | some i => (v.take i, v.drop (i + 1))
  | none => (v, [])

/-- The loop of `Rammbock._get_headers`: walk the field entries with a running
index, collecting the split values of the header entries together with their
indexes. -/
def collectHeaders : Nat → List (Str × Str) → List (Str × Str) × List Nat
  | _, [] => ([], [])
  | i, p :: rest =>
    if isHeaderEntry p then
      (splitColon1 p.2 :: (collectHeaders (i + 1) rest).1,
       i :: (collectHeaders (i + 1) rest).2)
    else collectHeaders (i + 1) rest

/-- The final comprehension of `Rammbock._get_headers`: keep the entries whose
index is not among the collected header indexes. -/
def dropIndexes : Nat → List Nat → List (Str × Str) → List (Str × Str)
  | _, _, [] => []
  | i, idxs, p :: rest =>
    if i ∈ idxs then dropIndexes (i + 1) idxs rest
    else p :: dropIndexes (i + 1) idxs rest

/-- `Rammbock._get_headers(fields)`: returns the header-override pairs and the
remaining field entries. -/
def get_headers (fields : List (Str × Str)) : List (Str × Str) × List (Str × Str) :=
  let (headers, idxs) := collectHeaders 0 fields
  (headers, dropIndexes 0 idxs fields)

/-- `Rammbock._parse_parameters(parameters)`: classify every token, peel off
the header overrides, and convert the three pair lists to dictionaries
(`Rammbock._to_dict`), in the order configs, fields, headers. -/
def parse_parameters (params : List Str) : Except String (Dict × Dict × Dict) :=
  match parse_entries params with
  | .error e => .error e
  | .ok (configs, fields) =>
    let (headers, fields2) := get_headers fields
    .ok (dictOfList configs, dictOfList fields2, dictOfList headers)

/-! ## Message templates and the builder session (`Rammbock.py`) -/

/-- The field and container templates that live on the message stack:
`UInt`, `Char`, `PDU` primitives and the `MessageTemplate`, `StructTemplate`,
`ListTemplate`, `UnionTemplate`, `BinaryContainerTemplate` containers of the
`templates` module, as constructed by the keywords of `Rammbock.py`. A
message template records its name, its protocol and the header-override
parameters it was created with. -/
inductive Template where
  | uintT (len : Nat) (name : Str)
  | charT (len : Nat) (name : Str)
  | pduT (lenSpec : Str)
  | msgT (name : Str) (proto : Option Protocol) (headerParams : Dict)
      (fields : List Template)
  | structT (ty : Str) (name : Str) (fields : List Template)
  | listT (size : Str) (name : Str) (fields : List Template)
  | unionT (ty : Str) (name : Str) (fields : List Template)
  | binT (name : Str) (fields : List Template)
deriving Repr

/-- `container.add(field)`: containers append the field to their children.
The primitive templates have no `add` method in Python (calling it would be
an `AttributeError`); they are never on the message stack, and the embedding
leaves them unchanged. -/
def Template.add (t f : Template) : Template :=
  match t with
  | .msgT n pr h fs => .msgT n pr h (fs ++ [f])
  | .structT ty n fs => .structT ty n (fs ++ [f])
  | .listT sz n fs => .listT sz n (fs ++ [f])
  | .unionT ty n fs => .unionT ty n (fs ++ [f])
  | .binT n fs => .binT n (fs ++ [f])
  | t => t

/-- Bit width of a binary-container sub-field. Modelled from the spec: the
sub-fields of a binary container are `(name, bit_width)` pairs, declared
through `uint` whose length is the bit count. -/
def bitWidth : Template → Nat
  | .uintT n _ => n
  | _ => 0

/-- Total bit length of a list of binary-container sub-fields. -/
def bitSum (fs : List Template) : Nat :=
  fs.foldl (fun a f => a + bitWidth f) 0

/-- Modelled from the spec: `BinaryContainerTemplate.verify()` (templates
module, not in `src/`) checks that the total bit length of the sub-fields
equals the container's byte length × 8, i.e. is a whole number of bytes (the
container's byte length is derived from its contents; `new_binary_container`
takes no explicit length). On any non-binary-container template `verify` does
not exist and the call is an `AttributeError`. -/
def binVerify : Template → Except String Unit
  | .binT _ fs => if bitSum fs % 8 = 0 then .ok () else .error "Verify failed"
  | _ => .error "AttributeError: object has no attribute verify"

/-- The mutable state of a `Rammbock` instance that the template keywords
touch: the protocol in progress, the protocol registry, the message stack
(top of stack at the head of the list) and the pending field-value
environment. The server and client caches belong to the transport layer and
are not modelled. -/
structure Session where
  protocol_in_progress : Option Protocol
  protocols : List (Str × Protocol)
  message_stack : List Template
  field_values : Dict

/-- The outcome of one keyword call on a session: a value and the new session
state, or the message of the raised exception together with the state the
object is left in when the exception escapes. -/
inductive StepRes (α : Type) where
  | ok : α → Session → StepRes α
  | err : String → Session → StepRes α

/-- Lookup in the protocol registry, as `protocol_name in self._protocols`
and `self._protocols[name]`. -/
def protoLookup (ps : List (Str × Protocol)) (n : Str) : Option Protocol :=
  match ps with
  | [] => none
  | (a, p) :: rest => if a = n then some p else protoLookup rest n

/-- `Rammbock.start_protocol_description(protocol_name)`: refuse when a
protocol definition is already open, refuse a duplicate name, otherwise open
a fresh empty protocol of that name. -/
def start_protocol_description (s : Session) (protocol_name : Str) : StepRes Unit :=
  match s.protocol_in_progress with
  | some _ => .err "Can not start a new protocol definition in middle of old." s
  | none =>
    match protoLookup s.protocols protocol_name with
    | some _ => .err "Protocol already defined" s
    | none =>
      .ok () { s with protocol_in_progress := some ⟨protocol_name, []⟩ }

/-- `Rammbock._get_protocol(protocol)`: `None` for a falsy argument, a
registry lookup otherwise (a missing name is a `KeyError`). -/
def get_protocol_op (s : Session) : Option Str → Except String (Option Protocol)
  | none => .ok none
  | some n =>
    match protoLookup s.protocols n with
    | some p => .ok (some p)
    | none => .error "KeyError"

/-- `Rammbock.new_message(message_name, protocol, *parameters)`: refuse while
a protocol definition is in progress; otherwise resolve the protocol, parse
the parameters (whose field entries are the header-field parameters of the
new template), replace the whole message stack by the single fresh
`MessageTemplate`, and reset the pending field-value environment. -/
def new_message (s : Session) (message_name : Str) (protocolName : Option Str)
    (parameters : List Str) : StepRes Unit :=
  match s.protocol_in_progress with
  | some _ =>
    .err "Protocol definition in progress. Please finish it before starting to define a message." s
  | none =>
    match get_protocol_op s protocolName with
    | .error e => .err e s
    | .ok proto =>
      match parse_parameters parameters with
      | .error e => .err e s
      | .ok (_, header_fields, _) =>
        .ok () { s with
          message_stack := [Template.msgT message_name proto header_fields []],
          field_values := [] }

/-- `Rammbock.value(name, value)`: record one override in the pending
field-value environment. -/
def value_op (s : Session) (n v : Str) : Session :=
  { s with field_values := dictSet s.field_values n v }

/-- `Rammbock._populate_defaults(fields)`: merge the given fields over the
pending environment (the parameter fields win), clear the environment, and
return the merged dictionary together with the new session state. -/
def populate_defaults (s : Session) (fields : Dict) : Dict × Session :=
  (dictUpdate s.field_values fields, { s with field_values := [] })

/-- `Rammbock._get_parameters_with_defaults(parameters)`: parse the tokens,
then run the field dictionary through `_populate_defaults`. -/
def get_parameters_with_defaults (s : Session) (parameters : List Str) :
    Except String ((Dict × Dict × Dict) × Session) :=
  match parse_parameters parameters with
  | .error e => .error e
  | .ok (configs, fields, headers) =>
    let (merged, s2) := populate_defaults s fields
    .ok ((configs, merged, headers), s2)

/-- `Rammbock._get_message_template()`: the message stack must hold exactly
the one completed `MessageTemplate`. On a deeper stack the exception names
the unfinished container (`self._current_container`, the top of the stack);
on an empty stack that very access is an `IndexError`. -/
def get_message_template (s : Session) : Except String Template :=
  match s.message_stack with
  | [t] => .ok t
  | [] => .error "IndexError: list index out of range"
  | _ :: _ :: _ => .error "Message definition not complete."

/-- `Rammbock.get_message(*parameters)` up to the boundary of the missing
`MessageTemplate.encode`: consume the parameters (which clears the pending
environment), fetch the unique message template, and return the template
together with the message-field and header-field dictionaries that
`_encode_message` hands to `encode`. -/
def get_message (s : Session) (parameters : List Str) :
    StepRes (Template × Dict × Dict) :=
  match get_parameters_with_defaults s parameters with
  | .error e => .err e s
  | .ok ((_, message_fields, header_fields), s2) =>
    match get_message_template s2 with
    | .error e => .err e s2
    | .ok t => .ok (t, message_fields, header_fields) s2

/-- Modelled from the spec: `Protocol.add(field)` (templates module, not in
`src/`). A PDU must refer to an already declared header field and a second
PDU is rejected; any other header field is appended. The argument is a
primitive field template (the spec's header fields are the primitives). -/
def Protocol.add (p : Protocol) (f : PField) : Except String Protocol :=
  match f with
  | .pduP lenSpec =>
    if p.pfields.any isPDUf then .error "Duplicate PDU"
    else
      match mkLength lenSpec with
      | .error e => .error e
      | .ok (.static _) => .ok { p with pfields := p.pfields ++ [f] }
      | .ok (.dynamic fieldName _) =>
        if p.pfields.any (fun g =>
            match g with
            | .uintP _ n => n = fieldName
            | .charP _ n => n = fieldName
            | .pduP _ => false) then
          .ok { p with pfields := p.pfields ++ [f] }
        else .error "Length field not resolvable"
  | _ => .ok { p with pfields := p.pfields ++ [f] }

/-- Conversion of a primitive template to a protocol header field; container
templates are not header primitives. -/
def toPField : Template → Option PField
  | .uintT n name => some (.uintP n name)
  | .charT n name => some (.charP n name)
  | .pduT lenSpec => some (.pduP lenSpec)
  | _ => none

/-- `Rammbock._add_field(field)`: route the field to the protocol in progress
when one is open, else to the current container (the top of the message
stack; on an empty stack the access is an `IndexError`). -/
def add_field (s : Session) (f : Template) : StepRes Unit :=
  match s.protocol_in_progress with
  | some p =>
    match toPField f with
    | none => .err "Protocol header fields must be primitive fields" s
    | some pf =>
      match Protocol.add p pf with
      | .error e => .err e s
      | .ok p2 => .ok () { s with protocol_in_progress := some p2 }
  | none =>
    match s.message_stack with
    | [] => .err "IndexError: list index out of range" s
    | top :: rest => .ok () { s with message_stack := top.add f :: rest }

/-- `Rammbock.end_struct()`: pop the top of the message stack and add it as a
field of what `_add_field` routes to. -/
def end_struct (s : Session) : StepRes Unit :=
  match s.message_stack with
  | [] => .err "IndexError: pop from empty list" s
  | top :: rest => add_field { s with message_stack := rest } top

/-- `Rammbock.end_list()`: identical body to `end_struct`. -/
def end_list (s : Session) : StepRes Unit :=
  match s.message_stack with
  | [] => .err "IndexError: pop from empty list" s
  | top :: rest => add_field { s with message_stack := rest } top

/-- `Rammbock.end_union()`: identical body to `end_struct`. -/
def end_union (s : Session) : StepRes Unit :=
  match s.message_stack with
  | [] => .err "IndexError: pop from empty list" s
  | top :: rest => add_field { s with message_stack := rest } top

/-- `Rammbock.end_binary_container()`: pop the top, call its `verify()` (an
exception escapes with the stack already popped), then add it as a field. -/
def end_binary_container (s : Session) : StepRes Unit :=
  match s.message_stack with
  | [] => .err "IndexError: pop from empty list" s
  | top :: rest =>
    match binVerify top with
    | .error e => .err e { s with message_stack := rest }
    | .ok _ => add_field { s with message_stack := rest } top

/-! ## The claims -/

/-- C1: for every Protocol, `header_length()` returns the sum of the static
byte widths of the header fields up to and including the PDU field, the PDU
itself contributing zero bytes and fields added after the PDU excluded; with
no PDU present it returns the sum of the widths of all header fields. -/
theorem C1_header_length :
    (∀ (pre post : List PField) (ls : Str), (∀ f ∈ pre, isPDUf f = false) →
      header_length_fields (pre ++ PField.pduP ls :: post) = (pre.map pwidth).sum)
    ∧ (∀ fs : List PField, (∀ f ∈ fs, isPDUf f = false) →
      header_length_fields fs = (fs.map pwidth).sum) := by
  constructor
  · intro pre post ls h
    induction pre with
    | nil => rfl
    | cons f pre' ih =>
      have hf : isPDUf f = false := h f (List.mem_cons_self f pre')
      have hrest := ih (fun g hg => h g (List.mem_cons_of_mem f hg))
      cases f with
      | uintP n name =>
        simp only [List.cons_append, header_length_fields, List.map_cons,
          List.sum_cons, pwidth]
        exact congrArg (fun x => n + x) hrest
      | charP n name =>
        simp only [List.cons_append, header_length_fields, List.map_cons,
          List.sum_cons, pwidth]
        exact congrArg (fun x => n + x) hrest
      | pduP l => simp [isPDUf] at hf
  · intro fs h
    induction fs with
    | nil => rfl
    | cons f fs' ih =>
      have hf : isPDUf f = false := h f (List.mem_cons_self f fs')
      have hrest := ih (fun g hg => h g (List.mem_cons_of_mem f hg))
      cases f with
      | uintP n name =>
        simp only [header_length_fields, List.map_cons, List.sum_cons, pwidth, hrest]
      | charP n name =>
        simp only [header_length_fields, List.map_cons, List.sum_cons, pwidth, hrest]
      | pduP l => simp [isPDUf] at hf

/-- Witness for C1: the header of the unit tests — `uint1 name1`,
`uint2 name2`, `uint2 length`, `PDU(length)`, `uint1 checksum` — has header
length 5, and the PDU-less header `uint1 name1` has header length 1. -/
theorem C1_header_length_witness :
    Protocol.header_length ⟨"Test".toList,
      [PField.uintP 1 "name1".toList, PField.uintP 2 "name2".toList,
       PField.uintP 2 "length".toList, PField.pduP "length".toList,
       PField.uintP 1 "checksum".toList]⟩ = 5
    ∧ header_length_fields [PField.uintP 1 "name1".toList] = 1 := by
  constructor
  · exact (C1_header_length.1
      [PField.uintP 1 "name1".toList, PField.uintP 2 "name2".toList,
       PField.uintP 2 "length".toList]
      [PField.uintP 1 "checksum".toList] "length".toList (by decide)).trans (by decide)
  · exact (C1_header_length.2 [PField.uintP 1 "name1".toList] (by decide)).trans
      (by decide)

/-- C2: for every Length expression with subtractor `s`,
`solve_value(p) = p - s` and `solve_parameter(v) = v + s`, so for every
`n ≥ 0` the two compositions are the identity; a Length with no subtractor
has subtractor 0 and both functions are the identity. -/
theorem C2_length_duality :
    (∀ (f : Str) (sub p : Int),
      solve_value (LengthDef.dynamic f sub) p = p - sub)
    ∧ (∀ (f : Str) (sub v : Int),
      solve_parameter (LengthDef.dynamic f sub) v = v + sub)
    ∧ (∀ (f : Str) (sub n : Int), 0 ≤ n →
      solve_value (LengthDef.dynamic f sub)
          (solve_parameter (LengthDef.dynamic f sub) n) = n
        ∧ solve_parameter (LengthDef.dynamic f sub)
          (solve_value (LengthDef.dynamic f sub) n) = n)
    ∧ (∀ s : Str, isNatStr s = false → findC '-' s = none →
      mkLength s = .ok (LengthDef.dynamic s 0)
        ∧ ∀ n : Int, solve_value (LengthDef.dynamic s 0) n = n
        ∧ solve_parameter (LengthDef.dynamic s 0) n = n) := by
  refine ⟨fun f sub p => rfl, fun f sub v => rfl, fun f sub n _ => ⟨?_, ?_⟩,
    fun s h1 h2 => ⟨?_, fun n => ⟨?_, ?_⟩⟩⟩
  · simp [solve_value, solve_parameter]
  · simp [solve_value, solve_parameter]
  · simp [mkLength, h1, h2]
  · simp [solve_value]
  · simp [solve_parameter]

/-- Witness for C2: `Length("length-8")` satisfies `solve_value(18) = 10`,
`solve_parameter(10) = 18`, the round trip at 10, and `Length("length")`
parses with subtractor 0. -/
theorem C2_length_duality_witness :
    solve_value (LengthDef.dynamic "length".toList 8) 18 = 10
    ∧ solve_parameter (LengthDef.dynamic "length".toList 8) 10 = 18
    ∧ solve_value (LengthDef.dynamic "length".toList 8)
        (solve_parameter (LengthDef.dynamic "length".toList 8) 10) = 10
    ∧ mkLength "length".toList = .ok (LengthDef.dynamic "length".toList 0) := by
  refine ⟨?_, ?_, ?_, ?_⟩
  · exact (C2_length_duality.1 "length".toList 8 18).trans (by decide)
  · exact (C2_length_duality.2.1 "length".toList 8 10).trans (by decide)
  · exact (C2_length_duality.2.2.1 "length".toList 8 10 (by decide)).1
  · exact (C2_length_duality.2.2.2 "length".toList (by decide) (by decide)).1

@[simp] theorem findC_eq_none_iff (c : Char) (s : Str) :
    findC c s = none ↔ c ∉ s := by
  induction s with
  | nil => simp [findC]
  | cons a rest ih =>
    by_cases h : a = c
    · subst h; simp [findC]
    · simp only [findC, if_neg h, Option.map_eq_none', ih, List.mem_cons, not_or]
      exact ⟨fun hr => ⟨fun hh => h hh.symm, hr⟩, fun hp => hp.2⟩

theorem findC_isSome_of_mem (c : Char) (s : Str) (h : c ∈ s) :
    ∃ i, findC c s = some i := by
  cases hf : findC c s with
  | none => rw [findC_eq_none_iff] at hf; exact absurd h hf
  | some i => exact ⟨i, rfl⟩

theorem findC_append_of_not_mem (c : Char) (l1 l2 : Str) (h : c ∉ l1) :
    findC c (l1 ++ l2) = Option.map (· + l1.length) (findC c l2) := by
  induction l1 with
  | nil => cases hf : findC c l2 <;> simp [hf]
  | cons a l1' ih =>
    have ha : ¬ a = c := fun hh => h (hh ▸ List.mem_cons_self a l1')
    have h' : c ∉ l1' := fun hh => h (List.mem_cons_of_mem a hh)
    cases hf : findC c l2 with
    | none => simp [findC, ha, ih h', hf]
    | some k => simp [findC, ha, ih h', hf, Nat.add_assoc]

theorem findC_first (c : Char) (pre post : Str) (h : c ∉ pre) :
    findC c (pre ++ c :: post) = some pre.length := by
  rw [findC_append_of_not_mem c pre _ h]
  simp [findC]

/-- C4: for every parameter token, `_parse_entry` raises when the token
contains neither `:` nor `=`; classifies it as a field value when it contains
`:` but no `=`, or both with the first `:` before the first `=`; and
classifies it as a transport config when it contains `=` but no `:`, or both
with the first `=` before the first `:`. -/
theorem C4_parse_entry_classification (param : Str) :
    ((':' ∉ param ∧ '=' ∉ param) → ∃ e, parse_entry param = .error e)
    ∧ ((':' ∈ param ∧ '=' ∉ param) →
      parse_entry param = .ok (.fieldE (name_and_value ':' param)))
    ∧ (('=' ∈ param ∧ ':' ∉ param) →
      parse_entry param = .ok (.configE (name_and_value '=' param)))
    ∧ (∀ pre post, param = pre ++ '=' :: post → '=' ∉ pre → ':' ∉ pre →
      ':' ∈ param →
      parse_entry param = .ok (.configE (name_and_value '=' param)))
    ∧ (∀ pre post, param = pre ++ ':' :: post → ':' ∉ pre → '=' ∉ pre →
      '=' ∈ param →
      parse_entry param = .ok (.fieldE (name_and_value ':' param))) := by
  refine ⟨?_, ?_, ?_, ?_, ?_⟩
  · rintro ⟨hc, he⟩
    have hfc : findC ':' param = none := (findC_eq_none_iff ':' param).mpr hc
    have hfe : findC '=' param = none := (findC_eq_none_iff '=' param).mpr he
    exact ⟨"Illegal parameter", by simp [parse_entry, hfc, hfe]⟩
  · rintro ⟨hc, he⟩
    obtain ⟨i, hfc⟩ := findC_isSome_of_mem ':' param hc
    have hfe : findC '=' param = none := (findC_eq_none_iff '=' param).mpr he
    simp [parse_entry, hfc, hfe]
  · rintro ⟨he, hc⟩
    obtain ⟨i, hfe⟩ := findC_isSome_of_mem '=' param he
    have hfc : findC ':' param = none := (findC_eq_none_iff ':' param).mpr hc
    simp [parse_entry, hfc, hfe]
  · intro pre post hparam hepre hcpre hcmem
    have hfe : findC '=' param = some pre.length := by
      rw [hparam]; exact findC_first '=' pre post hepre
    have hcpost : ':' ∈ post := by
      rw [hparam] at hcmem
      rcases List.mem_append.mp hcmem with h1 | h2
      · exact absurd h1 hcpre
      · rcases List.mem_cons.mp h2 with h3 | h4
        · exact absurd h3 (by decide)
        · exact h4
    obtain ⟨k, hk⟩ := findC_isSome_of_mem ':' post hcpost
    have hfc : findC ':' param = some (k + 1 + pre.length) := by
      rw [hparam, findC_append_of_not_mem ':' pre _ hcpre]
      simp [findC, hk]
    have hgt : k + 1 + pre.length > pre.length := by omega
    simp [parse_entry, hfc, hfe, hgt]
  · intro pre post hparam hcpre hepre hemem
    have hfc : findC ':' param = some pre.length := by
      rw [hparam]; exact findC_first ':' pre post hcpre
    have hepost : '=' ∈ post := by
      rw [hparam] at hemem
      rcases List.mem_append.mp hemem with h1 | h2
      · exact absurd h1 hepre
      · rcases List.mem_cons.mp h2 with h3 | h4
        · exact absurd h3 (by decide)
        · exact h4
    obtain ⟨k, hk⟩ := findC_isSome_of_mem '=' post hepost
    have hfe : findC '=' param = some (k + 1 + pre.length) := by
      rw [hparam, findC_append_of_not_mem '=' pre _ hepre]
      simp [findC, hk]
    have hngt : ¬ pre.length > k + 1 + pre.length := by omega
    simp [parse_entry, hfc, hfe, hngt]

/-- Witness for C4: `foo:bar` is a field value, `name=cli:1` (with `=`
before `:`) is a transport config, `ip:10.0.0.1=x` (with `:` before `=`) is
a field value, and `nonsense` is an error. -/
theorem C4_parse_entry_classification_witness :
    parse_entry "foo:bar".toList = .ok (.fieldE ("foo".toList, "bar".toList))
    ∧ parse_entry "name=cli:1".toList =
      .ok (.configE ("name".toList, "cli:1".toList))
    ∧ parse_entry "ip:10.0.0.1=x".toList =
      .ok (.fieldE ("ip".toList, "10.0.0.1=x".toList))
    ∧ ∃ e, parse_entry "nonsense".toList = .error e := by
  refine ⟨?_, ?_, ?_, ?_⟩
  · exact ((C4_parse_entry_classification "foo:bar".toList).2.1
      ⟨by decide, by decide⟩).trans (by rfl)
  · exact ((C4_parse_entry_classification "name=cli:1".toList).2.2.2.1
      "name".toList "cli:1".toList (by decide) (by decide) (by decide)
      (by decide)).trans (by rfl)
  · exact ((C4_parse_entry_classification "ip:10.0.0.1=x".toList).2.2.2.2
      "ip".toList "10.0.0.1=x".toList (by decide) (by decide) (by decide)
      (by decide)).trans (by rfl)
  · exact (C4_parse_entry_classification "nonsense".toList).1
      ⟨by decide, by decide⟩

theorem collectHeaders_fst (fs : List (Str × Str)) : ∀ i : Nat,
    (collectHeaders i fs).1 =
      (fs.filter isHeaderEntry).map (fun p => splitColon1 p.2) := by
  induction fs with
  | nil => intro i; rfl
  | cons p rest ih =>
    intro i
    cases hp : isHeaderEntry p <;>
      simp [collectHeaders, hp, ih (i + 1), List.filter_cons]

theorem collectHeaders_snd_ge (fs : List (Str × Str)) : ∀ i : Nat,
    ∀ j ∈ (collectHeaders i fs).2, i ≤ j := by
  induction fs with
  | nil => intro i j hj; simp [collectHeaders] at hj
  | cons p rest ih =>
    intro i j hj
    cases hp : isHeaderEntry p
    · simp only [collectHeaders, hp, Bool.false_eq_true, if_false] at hj
      exact Nat.le_of_succ_le (ih (i + 1) j hj)
    · simp only [collectHeaders, hp, if_true, List.mem_cons] at hj
      rcases hj with h1 | h1
      · exact Nat.le_of_eq h1.symm
      · exact Nat.le_of_succ_le (ih (i + 1) j h1)

theorem dropIndexes_irrel (l : List (Str × Str)) : ∀ (m j : Nat) (idxs : List Nat),
    j < m → dropIndexes m (j :: idxs) l = dropIndexes m idxs l := by
  induction l with
  | nil => intro m j idxs _; rfl
  | cons p rest ih =>
    intro m j idxs hjm
    have hne : ¬ m = j := by omega
    simp only [dropIndexes, List.mem_cons, hne, false_or]
    by_cases hmem : m ∈ idxs
    · simp [hmem, ih (m + 1) j idxs (by omega)]
    · simp [hmem, ih (m + 1) j idxs (by omega)]

theorem dropIndexes_collectHeaders (fs : List (Str × Str)) : ∀ i : Nat,
    dropIndexes i (collectHeaders i fs).2 fs =
      fs.filter (fun p => ! isHeaderEntry p) := by
  induction fs with
  | nil => intro i; rfl
  | cons p rest ih =>
    intro i
    cases hp : isHeaderEntry p
    · have hnot : i ∉ (collectHeaders (i + 1) rest).2 := fun hmem =>
        absurd (collectHeaders_snd_ge rest (i + 1) i hmem) (by omega)
      simp [collectHeaders, hp, dropIndexes, hnot, ih (i + 1), List.filter_cons]
    · have hself : i ∈ i :: (collectHeaders (i + 1) rest).2 :=
        List.mem_cons_self i _
      simp only [collectHeaders, hp, if_true, dropIndexes, hself, if_pos hself,
        List.filter_cons]
      rw [dropIndexes_irrel rest (i + 1) i (collectHeaders (i + 1) rest).2
        (by omega), ih (i + 1)]
      simp [hp]

/-- The first `:` of a string splits it: the part before contains no `:` and
the string is the concatenation of the part before, the `:` and the part
after. -/
theorem findC_take_drop (c : Char) (s : Str) : ∀ i : Nat, findC c s = some i →
    s.take i ++ c :: s.drop (i + 1) = s ∧ c ∉ s.take i := by
  induction s with
  | nil => intro i h; simp [findC] at h
  | cons a rest ih =>
    intro i h
    by_cases ha : a = c
    · subst ha
      rw [findC, if_pos rfl] at h
      obtain rfl : i = 0 := (Option.some.inj h).symm
      simp
    · rw [findC, if_neg ha] at h
      cases hf : findC c rest with
      | none => rw [hf] at h; simp at h
      | some j =>
        rw [hf] at h
        obtain rfl : i = j + 1 := (Option.some.inj h).symm
        obtain ⟨h1, h2⟩ := ih j hf
        refine ⟨?_, ?_⟩
        · simp only [List.take_succ_cons, List.drop_succ_cons, List.cons_append]
          exact congrArg (a :: ·) h1
        · simp only [List.take_succ_cons, List.mem_cons, not_or]
          exact ⟨fun hh => ha hh.symm, h2⟩

/-- C5: `_get_headers` removes exactly the field entries whose key is
`header` and whose value contains a `:`; each removed value is split at its
first `:` into a header name/value pair, in order; every other field entry
stays, in order. -/
theorem C5_get_headers (fields : List (Str × Str)) :
    (get_headers fields).1 =
      (fields.filter isHeaderEntry).map (fun p => splitColon1 p.2)
    ∧ (get_headers fields).2 = fields.filter (fun p => ! isHeaderEntry p)
    ∧ ∀ p ∈ fields, isHeaderEntry p = true →
        p.2 = (splitColon1 p.2).1 ++ ':' :: (splitColon1 p.2).2
        ∧ ':' ∉ (splitColon1 p.2).1 := by
  refine ⟨collectHeaders_fst fields 0, dropIndexes_collectHeaders fields 0,
    ?_⟩
  intro p _ hp
  have hcv : ':' ∈ p.2 := by
    simp only [isHeaderEntry, Bool.decide_and, Bool.and_eq_true,
      decide_eq_true_eq] at hp
    exact hp.2
  obtain ⟨i, hi⟩ := findC_isSome_of_mem ':' p.2 hcv
  obtain ⟨h1, h2⟩ := findC_take_drop ':' p.2 i hi
  rw [splitColon1, hi]
  exact ⟨h1.symm, h2⟩

/-- Witness for C5: in `[header: msgId:5, field_1: 1]` the header entry is
split into the `msgId`/`5` override and removed, the ordinary field stays,
and the split is at the first `:`. -/
theorem C5_get_headers_witness :
    (get_headers [("header".toList, "msgId:5".toList),
      ("field_1".toList, "1".toList)]).1 = [("msgId".toList, "5".toList)]
    ∧ (get_headers [("header".toList, "msgId:5".toList),
      ("field_1".toList, "1".toList)]).2 = [("field_1".toList, "1".toList)]
    ∧ ("msgId:5".toList =
        (splitColon1 "msgId:5".toList).1 ++ ':' :: (splitColon1 "msgId:5".toList).2
      ∧ ':' ∉ (splitColon1 "msgId:5".toList).1) := by
  have h := C5_get_headers [("header".toList, "msgId:5".toList),
    ("field_1".toList, "1".toList)]
  exact ⟨h.1.trans (by rfl), h.2.1.trans (by rfl),
    h.2.2 ("header".toList, "msgId:5".toList) (by simp) (by decide)⟩

/-- A sequence of `Rammbock.value(name, value)` calls, applied in order. -/
def run_values (s : Session) (vals : List (Str × Str)) : Session :=
  vals.foldl (fun acc p => value_op acc p.1 p.2) s

/-- C6: `get_message` fails when the message stack depth is not exactly 1
(some opened container is unclosed), and with depth exactly 1 it hands the
single `MessageTemplate` on the stack to encoding. -/
theorem C6_get_message_depth (s : Session) (params : List Str)
    (cfg flds hdrs : Dict)
    (hparse : parse_parameters params = .ok (cfg, flds, hdrs)) :
    (s.message_stack.length ≠ 1 →
      ∃ e, get_message s params = .err e { s with field_values := [] })
    ∧ (∀ t, s.message_stack = [t] →
      get_message s params =
        .ok (t, dictUpdate s.field_values flds, hdrs)
          { s with field_values := [] }) := by
  constructor
  · intro hlen
    cases hstack : s.message_stack with
    | nil =>
      refine ⟨"IndexError: list index out of range", ?_⟩
      simp [get_message, get_parameters_with_defaults, hparse,
        populate_defaults, get_message_template, hstack]
    | cons a tail =>
      cases tail with
      | nil => exact absurd (by rw [hstack]; rfl) hlen
      | cons b r =>
        refine ⟨"Message definition not complete.", ?_⟩
        simp [get_message, get_parameters_with_defaults, hparse,
          populate_defaults, get_message_template, hstack]
  · intro t hstack
    simp [get_message, get_parameters_with_defaults, hparse,
      populate_defaults, get_message_template, hstack]

/-- Witness for C6: with a lone message template on the stack `get_message`
returns it; with an unclosed struct on the stack it fails. -/
theorem C6_get_message_depth_witness :
    get_message ⟨none, [], [Template.msgT "m".toList none [] []], []⟩ [] =
      .ok (Template.msgT "m".toList none [] [], [], [])
        ⟨none, [], [Template.msgT "m".toList none [] []], []⟩
    ∧ ∃ e, get_message ⟨none, [],
        [Template.structT "t".toList "x".toList [],
         Template.msgT "m".toList none [] []], []⟩ [] =
      .err e ⟨none, [],
        [Template.structT "t".toList "x".toList [],
         Template.msgT "m".toList none [] []], []⟩ := by
  constructor
  · exact ((C6_get_message_depth
      ⟨none, [], [Template.msgT "m".toList none [] []], []⟩ [] [] [] [] rfl).2
      (Template.msgT "m".toList none [] []) rfl).trans (by rfl)
  · exact (C6_get_message_depth ⟨none, [],
      [Template.structT "t".toList "x".toList [],
       Template.msgT "m".toList none [] []], []⟩ [] [] [] [] rfl).1
      (by decide)

/-- C7: `start_protocol_description` fails (leaving the whole session state,
in particular the in-progress slot and the protocol registry, unchanged)
when a protocol definition is in progress or when the name is already
registered; otherwise a fresh empty protocol of that name becomes the
protocol in progress. -/
theorem C7_start_protocol (s : Session) (pname : Str) :
    (∀ p, s.protocol_in_progress = some p →
      start_protocol_description s pname =
        .err "Can not start a new protocol definition in middle of old." s)
    ∧ (s.protocol_in_progress = none →
      ∀ p, protoLookup s.protocols pname = some p →
      start_protocol_description s pname = .err "Protocol already defined" s)
    ∧ (s.protocol_in_progress = none → protoLookup s.protocols pname = none →
      start_protocol_description s pname =
        .ok () { s with protocol_in_progress := some ⟨pname, []⟩ }) := by
  refine ⟨?_, ?_, ?_⟩
  · intro p hp; simp [start_protocol_description, hp]
  · intro hn p hl; simp [start_protocol_description, hn, hl]
  · intro hn hl; simp [start_protocol_description, hn, hl]

/-- Witness for C7: the three cases at concrete sessions. -/
theorem C7_start_protocol_witness :
    start_protocol_description ⟨some ⟨"P".toList, []⟩, [], [], []⟩ "Q".toList =
      .err "Can not start a new protocol definition in middle of old."
        ⟨some ⟨"P".toList, []⟩, [], [], []⟩
    ∧ start_protocol_description
        ⟨none, [("P".toList, ⟨"P".toList, []⟩)], [], []⟩ "P".toList =
      .err "Protocol already defined"
        ⟨none, [("P".toList, ⟨"P".toList, []⟩)], [], []⟩
    ∧ start_protocol_description ⟨none, [], [], []⟩ "P".toList =
      .ok () ⟨some ⟨"P".toList, []⟩, [], [], []⟩ := by
  refine ⟨?_, ?_, ?_⟩
  · exact (C7_start_protocol _ "Q".toList).1 ⟨"P".toList, []⟩ rfl
  · exact (C7_start_protocol _ "P".toList).2.1 rfl ⟨"P".toList, []⟩ rfl
  · exact ((C7_start_protocol ⟨none, [], [], []⟩ "P".toList).2.2 rfl rfl).trans
      (by rfl)

/-- C8: `new_message` fails whenever a protocol definition is in progress
(the session unchanged); on success it replaces the message stack with the
single fresh `MessageTemplate` — bound to the resolved protocol and the
field entries of its parameters as header overrides — and resets the pending
field-value environment, whatever containers or values were left over. -/
theorem C8_new_message (s : Session) (mname : Str) (pn : Option Str)
    (params : List Str) :
    (∀ p, s.protocol_in_progress = some p →
      ∃ e, new_message s mname pn params = .err e s)
    ∧ (s.protocol_in_progress = none →
      ∀ pr, get_protocol_op s pn = .ok pr →
      ∀ cfg flds hdrs, parse_parameters params = .ok (cfg, flds, hdrs) →
      new_message s mname pn params =
        .ok () { s with
          message_stack := [Template.msgT mname pr flds []],
          field_values := [] }) := by
  constructor
  · intro p hp
    refine ⟨"Protocol definition in progress. Please finish it before starting to define a message.", ?_⟩
    simp [new_message, hp]
  · intro hn pr hpr cfg flds hdrs hparse
    simp [new_message, hn, hpr, hparse]

/-- Witness for C8: `new_message` refuses while a protocol is open, and on a
session with an unclosed struct and a pending override it resets both. -/
theorem C8_new_message_witness :
    (∃ e, new_message ⟨some ⟨"P".toList, []⟩, [], [], []⟩ "m".toList none [] =
      .err e ⟨some ⟨"P".toList, []⟩, [], [], []⟩)
    ∧ new_message ⟨none, [],
        [Template.structT "t".toList "x".toList [],
         Template.msgT "old".toList none [] []],
        [("a".toList, "1".toList)]⟩ "m".toList none [] =
      .ok () ⟨none, [], [Template.msgT "m".toList none [] []], []⟩ := by
  constructor
  · exact (C8_new_message _ "m".toList none []).1 ⟨"P".toList, []⟩ rfl
  · exact ((C8_new_message _ "m".toList none []).2 rfl none rfl [] [] [] rfl).trans
      (by rfl)

/-- C9: overrides recorded with `value` are all fed to the next
encode/receive — every recorded name not shadowed by that operation's own
parameters keeps its recorded value in the merged dictionary — and the
pending environment is empty afterwards, so a second operation without new
`value` calls sees none of them. -/
theorem C9_value_consumed (s : Session) (vals : List (Str × Str))
    (fields fields2 : Dict) :
    (∀ n v, dictGet (run_values s vals).field_values n = some v →
      dictLastGet fields n = none →
      dictGet (populate_defaults (run_values s vals) fields).1 n = some v)
    ∧ (populate_defaults (run_values s vals) fields).2.field_values = []
    ∧ (∀ n, dictLastGet fields2 n = none →
      dictGet (populate_defaults
        ((populate_defaults (run_values s vals) fields).2) fields2).1 n
        = none) := by
  refine ⟨?_, rfl, ?_⟩
  · intro n v hv hnone
    rw [populate_defaults]
    rw [dictGet_dictUpdate_of_none _ fields n hnone]
    exact hv
  · intro n hnone
    rw [populate_defaults, populate_defaults]
    rw [dictGet_dictUpdate_of_none _ fields2 n hnone]
    rfl

/-- Witness for C9: recording `a := 1` and encoding with no parameters keeps
the override; the follow-up operation no longer sees it. -/
theorem C9_value_consumed_witness :
    dictGet (populate_defaults
      (run_values ⟨none, [], [], []⟩ [("a".toList, "1".toList)]) []).1
      "a".toList = some "1".toList
    ∧ (populate_defaults
      (run_values ⟨none, [], [], []⟩ [("a".toList, "1".toList)]) []).2.field_values
      = []
    ∧ dictGet (populate_defaults ((populate_defaults
        (run_values ⟨none, [], [], []⟩ [("a".toList, "1".toList)]) []).2) []).1
      "a".toList = none := by
  have h := C9_value_consumed ⟨none, [], [], []⟩ [("a".toList, "1".toList)] [] []
  exact ⟨h.1 "a".toList "1".toList (by rfl) rfl, h.2.1, h.2.2 "a".toList rfl⟩

/-- C10: when a name is both recorded via `value` and supplied as a
`name:value` parameter of the same keyword, the keyword's own parameter
wins in the merged field dictionary. -/
theorem C10_parameter_wins (s : Session) (n v : Str) (fields : Dict) (w : Str)
    (h : dictLastGet fields n = some w) :
    dictGet (populate_defaults (value_op s n v) fields).1 n = some w :=
  dictGet_dictUpdate_of_last _ fields n w h

/-- Witness for C10: `value(a, 1)` followed by a parameter `a:2` encodes
`a = 2`. -/
theorem C10_parameter_wins_witness :
    dictGet (populate_defaults
      (value_op ⟨none, [], [], []⟩ "a".toList "1".toList)
      [("a".toList, "2".toList)]).1 "a".toList = some "2".toList :=
  C10_parameter_wins ⟨none, [], [], []⟩ "a".toList "1".toList
    [("a".toList, "2".toList)] "2".toList (by rfl)

/-- Counterexample to C3 as stated: `end_struct` on a session whose top of
stack is a **ListTemplate** succeeds — no close operation checks that the
popped container's type matches, and `end_struct` invokes no verify — where
the claim requires the mismatched close to fail. -/
theorem C3_close_counterexample :
    end_struct ⟨none, [],
      [Template.listT "5".toList "inner".toList [],
       Template.msgT "m".toList none [] []], []⟩ =
    .ok () ⟨none, [],
      [Template.msgT "m".toList none []
        [Template.listT "5".toList "inner".toList []]], []⟩ := rfl

/-- C3 amended: with no protocol definition in progress, each close
operation pops the top of the stack and adds the popped container — whatever
its type, no type check is performed — as a field of the new top;
`end_struct`, `end_list` and `end_union` invoke no verification, and only
`end_binary_container` invokes `verify` on the popped container (when verify
raises, the stack stays popped and nothing is added). -/
theorem C3_close_amended (s : Session) (top next : Template)
    (rest : List Template)
    (hpip : s.protocol_in_progress = none)
    (hstack : s.message_stack = top :: next :: rest) :
    end_struct s = .ok () { s with message_stack := next.add top :: rest }
    ∧ end_list s = .ok () { s with message_stack := next.add top :: rest }
    ∧ end_union s = .ok () { s with message_stack := next.add top :: rest }
    ∧ (binVerify top = .ok () →
      end_binary_container s =
        .ok () { s with message_stack := next.add top :: rest })
    ∧ (∀ e, binVerify top = .error e →
      end_binary_container s = .err e { s with message_stack := next :: rest }) := by
  refine ⟨?_, ?_, ?_, ?_, ?_⟩
  · simp [end_struct, add_field, hstack, hpip]
  · simp [end_list, add_field, hstack, hpip]
  · simp [end_union, add_field, hstack, hpip]
  · intro hv; simp [end_binary_container, add_field, hstack, hpip, hv]
  · intro e hv; simp [end_binary_container, hstack, hv]

/-- Witness for C3 amended: closing over a binary container whose sub-fields
fill whole bytes pops it and adds it to the message template, both through
`end_struct` and through `end_binary_container` (whose verify passes). -/
theorem C3_close_amended_witness :
    end_struct ⟨none, [],
      [Template.binT "b".toList [Template.uintT 8 "f".toList],
       Template.msgT "m".toList none [] []], []⟩ =
    .ok () ⟨none, [],
      [Template.msgT "m".toList none []
        [Template.binT "b".toList [Template.uintT 8 "f".toList]]], []⟩
    ∧ end_binary_container ⟨none, [],
      [Template.binT "b".toList [Template.uintT 8 "f".toList],
       Template.msgT "m".toList none [] []], []⟩ =
    .ok () ⟨none, [],
      [Template.msgT "m".toList none []
        [Template.binT "b".toList [Template.uintT 8 "f".toList]]], []⟩ := by
  have h := C3_close_amended
    ⟨none, [],
      [Template.binT "b".toList [Template.uintT 8 "f".toList],
       Template.msgT "m".toList none [] []], []⟩
    (Template.binT "b".toList [Template.uintT 8 "f".toList])
    (Template.msgT "m".toList none [] []) [] rfl rfl
  exact ⟨h.1.trans (by rfl), (h.2.2.2.1 (by rfl)).trans (by rfl)⟩

end Rammbock
